import Mathlib

/-!
Verification of the coverage-grid and robot-control engine of the
cornellnexus autonomous-robot software (`engine/grid.py`,
`engine/robot.py`, `engine/mission.py`).

Grid nodes are identified with their `(row, col)` positions throughout:
the Python code creates one fresh `Node` object per grid cell and Python's
`in` membership test compares such objects by identity, so node identity
coincides with position identity.  Machine floats are modelled as exact
rationals (or reals where a bound against the real number `π` is claimed);
Python `%`, `//` and `int()` are embedded explicitly below.
-/

namespace CornellNexus

/-- Traversal-mode enumeration.  Modelled from the spec: the member class
`ControlMode` itself lives in `engine/mission.py`, which is not part of the
sources; its three members `LAWNMOWER_FULL`, `LAWNMOWER_BORDERS`, `SPIRAL`
are named by `Grid.get_waypoints` and the spec lists exactly the three
traversal modes `full | borders | spiral`. -/
inductive ControlMode where
  | LAWNMOWER_FULL
  | LAWNMOWER_BORDERS
  | SPIRAL
deriving DecidableEq, Repr

/-- Python value passed as the `mode` argument of `Grid.get_waypoints`: either
one of the `ControlMode` members, or some other value (a string such as the
`"borders"`/`"full"` literals that `Mission.__init__` passes, or an integer).
Python's `==` between a `ControlMode` member and any non-member is `False`. -/
inductive ModeValue where
  | ctrl (c : ControlMode)
  | ofString (s : String)
  | ofInt (n : Int)
deriving DecidableEq, Repr

/-- Embeds `Grid.get_all_lawnmower_waypoints` (grid.py lines 297-315):
`for i in range(cols): for j in range(rows):` append `node_list[j, i]` when
`i % 2 == 0` and `node_list[rows - (j + 1), i]` when `i % 2 == 1`. -/
def get_all_lawnmower_waypoints (rows cols : Nat) : List (Int × Int) :=
  (List.range cols).bind (fun (i : Nat) =>
    (List.range rows).map (fun (j : Nat) =>
      if i % 2 = 0 then ((j : Int), (i : Int))
      else ((rows : Int) - ((j : Int) + 1), (i : Int))))

/-- Embeds `Grid.get_border_lawnmower_waypoints` (grid.py lines 317-338):
even columns append `node_list[0, i]` then `node_list[rows - 1, i]`, odd
columns the two in the opposite order. -/
def get_border_lawnmower_waypoints (rows cols : Nat) : List (Int × Int) :=
  (List.range cols).bind (fun (i : Nat) =>
    if i % 2 = 0 then
      [((0 : Int), (i : Int)), ((rows : Int) - 1, (i : Int))]
    else
      [((rows : Int) - 1, (i : Int)), ((0 : Int), (i : Int))])

/-- Column step of the spiral direction cycle `step_col = (1, 0, -1, 0)`
(grid.py line 276), indexed by `turn_state % 4`. -/
def stepCol (t : Nat) : Int :=
  match t % 4 with
  | 0 => 1
  | 2 => -1
  | _ => 0

/-- Row step of the spiral direction cycle `step_row = (0, 1, 0, -1)`
(grid.py line 277), indexed by `turn_state % 4`. -/
def stepRow (t : Nat) : Int :=
  match t % 4 with
  | 1 => 1
  | 3 => -1
  | _ => 0

/-- Loop state of `Grid.get_spiral_waypoints`: current position `(row, col)`,
the `turn_state` variable, and the `waypoints` accumulator (in visit order,
before the final `reverse`). -/
structure SpiralState where
  row : Int
  col : Int
  turn : Nat
  waypoints : List (Int × Int)
deriving DecidableEq, Repr

/-- Embeds one iteration of the `for _ in range(rows * cols)` loop of
`Grid.get_spiral_waypoints` (grid.py lines 280-293): append the current node,
then either advance in the current direction (if the next cell is in bounds
and not yet visited) or rotate the direction cycle once and advance
unconditionally. -/
def spiralStep (rows cols : Nat) (s : SpiralState) : SpiralState :=
  let w := s.waypoints ++ [(s.row, s.col)]
  let nextCol := s.col + stepCol s.turn
  let nextRow := s.row + stepRow s.turn
  if 0 ≤ nextCol ∧ nextCol < (cols : Int) ∧ 0 ≤ nextRow ∧ nextRow < (rows : Int)
      ∧ (nextRow, nextCol) ∉ w then
    { row := nextRow, col := nextCol, turn := s.turn, waypoints := w }
  else
    let t := (s.turn + 1) % 4
    { row := s.row + stepRow t, col := s.col + stepCol t, turn := t, waypoints := w }

/-- Runs `n` iterations of the spiral loop. -/
def spiralIter (rows cols : Nat) : Nat → SpiralState → SpiralState
  | 0, s => s
  | n + 1, s => spiralIter rows cols n (spiralStep rows cols s)

/-- Embeds `Grid.get_spiral_waypoints` (grid.py lines 262-295): run the loop
`rows * cols` times from `(row, col) = (0, 0)`, `turn_state = 0`, then
reverse the accumulated path. -/
def get_spiral_waypoints (rows cols : Nat) : List (Int × Int) :=
  (spiralIter rows cols (rows * cols)
    { row := 0, col := 0, turn := 0, waypoints := [] }).waypoints.reverse

/-- Embeds `Grid.get_waypoints` (grid.py lines 340-371): dispatch on the three
`ControlMode` members, empty list otherwise. -/
def get_waypoints (rows cols : Nat) (mode : ModeValue) : List (Int × Int) :=
  if mode = .ctrl .LAWNMOWER_FULL then get_all_lawnmower_waypoints rows cols
  else if mode = .ctrl .LAWNMOWER_BORDERS then get_border_lawnmower_waypoints rows cols
  else if mode = .ctrl .SPIRAL then get_spiral_waypoints rows cols
  else []

/-- Spec-side description of boustrophedon order (spec §4.4.Traversal): column
0 bottom→top (rows ascending), column 1 top→bottom, alternating by column
parity. -/
def boustrophedonOrder (rows cols : Nat) : List (Int × Int) :=
  (List.range cols).bind (fun (i : Nat) =>
    if i % 2 = 0 then (List.range rows).map (fun (j : Nat) => ((j : Int), (i : Int)))
    else ((List.range rows).reverse).map (fun (j : Nat) => ((j : Int), (i : Int))))

lemma map_desc_eq_reverse (n : Nat) (i : Int) :
    (List.range n).map (fun (j : Nat) => ((n : Int) - ((j : Int) + 1), i)) =
      ((List.range n).reverse).map (fun (j : Nat) => ((j : Int), i)) := by
  apply List.ext_getElem
  · simp
  · intro k h1 h2
    have hk : k < n := by simpa using h1
    simp only [List.getElem_map, List.getElem_reverse, List.getElem_range,
      List.length_map, List.length_range, List.length_reverse]
    have hcast : ((n - 1 - k : Nat) : Int) = (n : Int) - ((k : Int) + 1) := by omega
    simp [hcast]

lemma length_bind_const {α β : Type} (l : List α) (f : α → List β) (k : Nat)
    (h : ∀ a ∈ l, (f a).length = k) : (l.bind f).length = l.length * k := by
  induction l with
  | nil => simp
  | cons x xs ih =>
    have hx := h x (by simp)
    have hxs := ih (fun a ha => h a (by simp [ha]))
    simp [List.cons_bind, hx, hxs, Nat.succ_mul, Nat.add_comm]

lemma lawnmower_length (rows cols : Nat) :
    (get_all_lawnmower_waypoints rows cols).length = rows * cols := by
  unfold get_all_lawnmower_waypoints
  rw [length_bind_const _ _ rows (by intro a _; simp)]
  simp [Nat.mul_comm]

lemma lawnmower_eq_boustrophedon (rows cols : Nat) :
    get_all_lawnmower_waypoints rows cols = boustrophedonOrder rows cols := by
  unfold get_all_lawnmower_waypoints boustrophedonOrder
  congr 1
  funext i
  by_cases h : i % 2 = 0
  · simp [h]
  · simp [h, map_desc_eq_reverse]

lemma lawnmower_head (rows cols : Nat) (hr : 0 < rows) (hc : 0 < cols) :
    (get_all_lawnmower_waypoints rows cols).head? = some (0, 0) := by
  obtain ⟨c, rfl⟩ := Nat.exists_eq_succ_of_ne_zero (Nat.pos_iff_ne_zero.mp hc)
  obtain ⟨r, rfl⟩ := Nat.exists_eq_succ_of_ne_zero (Nat.pos_iff_ne_zero.mp hr)
  unfold get_all_lawnmower_waypoints
  simp [List.range_succ_eq_map, List.flatMap_cons]

/-- C7: `Grid.get_all_lawnmower_waypoints` returns exactly `rows * cols`
waypoints in boustrophedon order — column 0 bottom→top (rows ascending),
column 1 top→bottom, alternating by column parity — and the first waypoint is
the node at (row 0, col 0). -/
theorem c7_lawnmower_boustrophedon (rows cols : Nat) (hr : 0 < rows) (hc : 0 < cols) :
    get_all_lawnmower_waypoints rows cols = boustrophedonOrder rows cols ∧
    (get_all_lawnmower_waypoints rows cols).length = rows * cols ∧
    (get_all_lawnmower_waypoints rows cols).head? = some (0, 0) :=
  ⟨lawnmower_eq_boustrophedon rows cols, lawnmower_length rows cols,
    lawnmower_head rows cols hr hc⟩

/-- Witness for C7 at a concrete 3 × 4 grid. -/
theorem c7_witness :
    0 < 3 ∧ 0 < 4 ∧
      (get_all_lawnmower_waypoints 3 4 = boustrophedonOrder 3 4 ∧
       (get_all_lawnmower_waypoints 3 4).length = 3 * 4 ∧
       (get_all_lawnmower_waypoints 3 4).head? = some (0, 0)) :=
  ⟨by decide, by decide, c7_lawnmower_boustrophedon 3 4 (by decide) (by decide)⟩

/-- C4: for every mode value that is not one of the three traversal modes,
`Grid.get_waypoints` returns the empty list; the dispatch is a total
`if`/`elif` chain ending in `return []`, so no error is raised. -/
theorem c4_unknown_mode_empty (rows cols : Nat) (mode : ModeValue)
    (h1 : mode ≠ .ctrl .LAWNMOWER_FULL) (h2 : mode ≠ .ctrl .LAWNMOWER_BORDERS)
    (h3 : mode ≠ .ctrl .SPIRAL) :
    get_waypoints rows cols mode = [] := by
  simp [get_waypoints, h1, h2, h3]

/-- Witness for C4 at the string mode `"borders"`, the default value that
`Mission.__init__` passes to `Grid.get_waypoints`. -/
theorem c4_witness :
    (ModeValue.ofString "borders" ≠ .ctrl .LAWNMOWER_FULL) ∧
    (ModeValue.ofString "borders" ≠ .ctrl .LAWNMOWER_BORDERS) ∧
    (ModeValue.ofString "borders" ≠ .ctrl .SPIRAL) ∧
    get_waypoints 5 7 (.ofString "borders") = [] :=
  ⟨by decide, by decide, by decide,
    c4_unknown_mode_empty 5 7 _ (by decide) (by decide) (by decide)⟩

/-- Python `%` on numbers with a positive divisor: `x % m = x - m * ⌊x / m⌋`
(the result takes the sign of the divisor). -/
def pyMod {α : Type} [LinearOrderedField α] [FloorRing α] (x m : α) : α :=
  x - m * ⌊x / m⌋

/-- Python `int()` applied to a number: truncation toward zero. -/
def pyInt {α : Type} [LinearOrderedField α] [FloorRing α] (q : α) : Int :=
  if 0 ≤ q then ⌊q⌋ else -⌊-q⌋

/-- Python `//` floor division. -/
def pyFloorDiv {α : Type} [LinearOrderedField α] [FloorRing α] (a b : α) : α :=
  (⌊a / b⌋ : Int)

/-- Integer nearest to `y`, ties to even (numpy's rounding mode). -/
def nearestEven {α : Type} [LinearOrderedField α] [FloorRing α] (y : α) : Int :=
  if Int.fract y < 1 / 2 then ⌊y⌋
  else if 1 / 2 < Int.fract y then ⌊y⌋ + 1
  else if ⌊y⌋ % 2 = 0 then ⌊y⌋ else ⌊y⌋ + 1

/-- Embeds `np.round(x, 3)`: round to the nearest multiple of `1 / 1000`,
ties to even (numpy's rounding mode). -/
def npRound3 {α : Type} [LinearOrderedField α] [FloorRing α] (x : α) : α :=
  (nearestEven (1000 * x) : α) / 1000

/-- Exact rational value of the IEEE-754 double `math.pi`,
`884279719003555 / 2^48`. -/
def pyPi : ℚ := 884279719003555 / 281474976710656

/-- Embeds `Robot.turn` from `engine/robot.py` (lines 109-114):
`clamp_angle = (self.state[2] + (turn_angle * dt)) % (2 * math.pi)` followed
by `self.state[2] = np.round(clamp_angle, 3)`.  Returns the new heading. -/
def Robot.turn (heading turn_angle dt : ℚ) : ℚ :=
  npRound3 (pyMod (heading + turn_angle * dt) (2 * pyPi))

lemma pyMod_nonneg (x m : ℚ) (hm : 0 < m) : 0 ≤ pyMod x m := by
  unfold pyMod
  have h := Int.floor_le (x / m)
  have : m * (⌊x / m⌋ : ℚ) ≤ m * (x / m) := by
    exact mul_le_mul_of_nonneg_left h (le_of_lt hm)
  have hxm : m * (x / m) = x := by field_simp
  linarith

lemma pyMod_lt (x m : ℚ) (hm : 0 < m) : pyMod x m < m := by
  unfold pyMod
  have h := Int.lt_floor_add_one (x / m)
  have : m * (x / m) < m * ((⌊x / m⌋ : ℚ) + 1) := by
    exact mul_lt_mul_of_pos_left h hm
  have hxm : m * (x / m) = x := by field_simp
  nlinarith

lemma nearestEven_nonneg (z : ℚ) (hz : 0 ≤ z) : 0 ≤ nearestEven z := by
  have h0 : 0 ≤ ⌊z⌋ := Int.floor_nonneg.mpr hz
  unfold nearestEven
  split_ifs <;> omega

lemma nearestEven_le (z : ℚ) : (nearestEven z : ℚ) ≤ z + 1 / 2 := by
  have hfl := Int.floor_le z
  have hfu := Int.lt_floor_add_one z
  have hfr : Int.fract z = z - (⌊z⌋ : ℚ) := rfl
  unfold nearestEven
  split_ifs with h1 h2 h3
  · linarith
  · rw [hfr] at h2
    push_cast
    linarith
  · linarith
  · have hhalf : Int.fract z = 1 / 2 := le_antisymm (not_lt.mp h2) (not_lt.mp h1)
    rw [hfr] at hhalf
    push_cast
    linarith

lemma npRound3_spec (y : ℚ) :
    ∃ r : Int, npRound3 y = (r : ℚ) / 1000 ∧ (0 ≤ y → 0 ≤ r) ∧
      (r : ℚ) ≤ 1000 * y + 1 / 2 := by
  refine ⟨nearestEven (1000 * y), rfl, ?_, ?_⟩
  · intro hy
    exact nearestEven_nonneg _ (by positivity)
  · exact nearestEven_le _

/-- C10: after `Robot.turn`, the stored heading lies in `[0, 2π)`: the update
wraps modulo `2 * math.pi` and the subsequent rounding to 3 decimal places
keeps the result below the real number `2π`. -/
theorem c10_turn_heading_range (heading turn_angle dt : ℚ) :
    0 ≤ Robot.turn heading turn_angle dt ∧
      ((Robot.turn heading turn_angle dt : ℚ) : ℝ) < 2 * Real.pi := by
  have hpi : (0 : ℚ) < 2 * pyPi := by norm_num [pyPi]
  set w : ℚ := pyMod (heading + turn_angle * dt) (2 * pyPi) with hw
  have hw0 : 0 ≤ w := pyMod_nonneg _ _ hpi
  have hw2 : w < 2 * pyPi := pyMod_lt _ _ hpi
  obtain ⟨r, hr, hr0, hrub⟩ := npRound3_spec w
  have hrval : Robot.turn heading turn_angle dt = (r : ℚ) / 1000 := hr
  constructor
  · rw [hrval]
    have := hr0 hw0
    positivity
  · rw [hrval]
    have hrb2 : r < 6284 := by
      have h62 : (2 : ℚ) * pyPi < 62832 / 10000 := by norm_num [pyPi]
      have hq : (r : ℚ) < 6284 := by linarith
      exact_mod_cast hq
    have hrb' : r ≤ 6283 := by omega
    have hR : ((r : ℚ) / 1000 : ℚ) ≤ (6283 : ℚ) / 1000 := by
      have : (r : ℚ) ≤ 6283 := by exact_mod_cast hrb'
      linarith
    have hcast : (((r : ℚ) / 1000 : ℚ) : ℝ) ≤ (((6283 : ℚ) / 1000 : ℚ) : ℝ) :=
      Rat.cast_le.mpr hR
    have h6283 : (((6283 : ℚ) / 1000 : ℚ) : ℝ) = (6283 : ℝ) / 1000 := by
      norm_num
    have hpi_real : (6283 : ℝ) / 1000 < 2 * Real.pi := by
      have := Real.pi_gt_3141592
      linarith
    rw [h6283] at hcast
    linarith

/-- Embeds the helper `calc_step` inside `Grid.__init__` (grid.py lines
35-55), with the geodesic extents `y_range = get_vincenty_y(origin, far)` and
`x_range = get_vincenty_x(origin, far)` taken as inputs (the geodesic engine
`engine/kinematics.py` is not among the sources):
`num_y_steps = int(y_range // step_size_m)`, `num_rows = num_y_steps + 1`,
and likewise for columns.  Returns `(num_rows, num_cols)`. -/
def calc_step (y_range x_range step_size_m : ℚ) : Int × Int :=
  (pyInt (pyFloorDiv y_range step_size_m) + 1,
   pyInt (pyFloorDiv x_range step_size_m) + 1)

/-- Node of the grid as stored by `Node(lat, long, x, y)` (the class in
`engine/node.py` is absent from the sources; per the spec's data model a node
carries its GPS coordinate and its local meter coordinate). -/
structure NodeG where
  lat : ℚ
  long : ℚ
  x : ℚ
  y : ℚ
deriving DecidableEq, Repr

/-- Single assignment `node_list[pos] = nd` on the node array, modelled as a
function update. -/
def writeNode (a : Nat × Nat → Option NodeG) (pos : Nat × Nat) (nd : NodeG) :
    Nat × Nat → Option NodeG :=
  fun p => if p = pos then some nd else a p

/-- Node value built at GPS coordinate `(lat, long)`: `Node(lat, long, x, y)`
with `x = get_vincenty_x(gps_origin, (lat, long))` and
`y = get_vincenty_y(gps_origin, (lat, long))` (grid.py lines 84-86 / 92-94);
the vincenty functions `gx`, `gy` are parameters. -/
def mkNode (gx gy : ℚ × ℚ → ℚ × ℚ → ℚ) (origin : ℚ × ℚ) (lat long : ℚ) : NodeG :=
  ⟨lat, long, gx origin (lat, long), gy origin (lat, long)⟩

/-- Loop body of `generate_nodes` for one `(i, j)` pair (grid.py lines
80-96): even columns write `node_list[j, i] = Node(lat, long, ...)` with
`lat = start_lat + j * lat_step`, odd columns write
`node_list[rows - (j + 1), i]` with
`lat = start_lat + (rows - 1) * lat_step - j * lat_step`; in both cases
`long = start_long + i * long_step`. -/
def serpentineCell (gx gy : ℚ × ℚ → ℚ × ℚ → ℚ) (start_lat start_long : ℚ)
    (rows : Nat) (lat_step long_step : ℚ) (i : Nat)
    (acc2 : Nat × Nat → Option NodeG) (j : Nat) : Nat × Nat → Option NodeG :=
  if i % 2 = 0 then
    writeNode acc2 (j, i)
      (mkNode gx gy (start_lat, start_long)
        (start_lat + (j : ℚ) * lat_step) (start_long + (i : ℚ) * long_step))
  else
    writeNode acc2 (rows - (j + 1), i)
      (mkNode gx gy (start_lat, start_long)
        (start_lat + ((rows : ℚ) - 1) * lat_step - (j : ℚ) * lat_step)
        (start_long + (i : ℚ) * long_step))

/-- Inner loop `for j in range(rows)` of `generate_nodes` for column `i`. -/
def serpentineColumn (gx gy : ℚ × ℚ → ℚ × ℚ → ℚ) (start_lat start_long : ℚ)
    (rows : Nat) (lat_step long_step : ℚ) (i : Nat)
    (acc : Nat × Nat → Option NodeG) : Nat × Nat → Option NodeG :=
  (List.range rows).foldl
    (serpentineCell gx gy start_lat start_long rows lat_step long_step i) acc

/-- Embeds the helper `generate_nodes` inside `Grid.__init__` (grid.py lines
57-98): serpentine fill of the `rows × cols` node array, columns left to
right via the outer loop `for i in range(cols)`.  The step sizes
`lat_step = meters_to_lat(step_size_m)` and
`long_step = meters_to_long(step_size_m, start_lat)` are taken as inputs. -/
def generate_nodes (gx gy : ℚ × ℚ → ℚ × ℚ → ℚ) (start_lat start_long : ℚ)
    (rows cols : Nat) (lat_step long_step : ℚ) : Nat × Nat → Option NodeG :=
  (List.range cols).foldl (fun acc (i : Nat) =>
    serpentineColumn gx gy start_lat start_long rows lat_step long_step i acc)
    (fun _ => none)

/-- Grid object after `Grid.__init__` (grid.py lines 100-113). -/
structure GridS where
  lat_min : ℚ
  lat_max : ℚ
  long_min : ℚ
  long_max : ℚ
  num_rows : Int
  num_cols : Int
  nodes : Nat × Nat → Option NodeG

/-- Embeds `Grid.__init__` (grid.py lines 31-113), parameterized by the
geodesic engine functions `gx = get_vincenty_x`, `gy = get_vincenty_y`,
`mtl = meters_to_lat`, `mtlo = meters_to_long` from the absent
`engine/kinematics.py`.  `STEP_SIZE_METERS = 2`; the constructor body
contains no validity check and no raise statement, so it always returns a
grid object. -/
def grid_init (gx gy : ℚ × ℚ → ℚ × ℚ → ℚ) (mtl : ℚ → ℚ) (mtlo : ℚ → ℚ → ℚ)
    (lat_min lat_max long_min long_max : ℚ) : GridS :=
  let step : ℚ := 2
  let y_range := gy (lat_min, long_min) (lat_max, long_max)
  let x_range := gx (lat_min, long_min) (lat_max, long_max)
  let dims := calc_step y_range x_range step
  { lat_min := lat_min, lat_max := lat_max,
    long_min := long_min, long_max := long_max,
    num_rows := dims.1, num_cols := dims.2,
    nodes := generate_nodes gx gy lat_min long_min dims.1.toNat dims.2.toNat
      (mtl step) (mtlo step lat_min) }

lemma pyInt_floor_of_nonneg (q : ℚ) (hq : 0 ≤ q) :
    pyInt (pyFloorDiv q 2) = ⌊q / 2⌋ := by
  unfold pyInt pyFloorDiv
  have h0 : (0 : ℚ) ≤ (⌊q / 2⌋ : ℚ) := by
    have : 0 ≤ ⌊q / 2⌋ := Int.floor_nonneg.mpr (by positivity)
    exact_mod_cast this
  rw [if_pos h0]
  exact Int.floor_intCast _

/-- C8: for every bounding box whose computed eastward extent is `X` meters
and northward extent `Y` meters (both nonnegative) and step size `S = 2`, the
constructed Grid has `num_cols = ⌊X / S⌋ + 1` and `num_rows = ⌊Y / S⌋ + 1`. -/
theorem c8_grid_dimensions (gx gy : ℚ × ℚ → ℚ × ℚ → ℚ) (mtl : ℚ → ℚ)
    (mtlo : ℚ → ℚ → ℚ) (lat_min lat_max long_min long_max X Y : ℚ)
    (hx : gx (lat_min, long_min) (lat_max, long_max) = X)
    (hy : gy (lat_min, long_min) (lat_max, long_max) = Y)
    (hX : 0 ≤ X) (hY : 0 ≤ Y) :
    (grid_init gx gy mtl mtlo lat_min lat_max long_min long_max).num_cols =
        ⌊X / 2⌋ + 1 ∧
      (grid_init gx gy mtl mtlo lat_min lat_max long_min long_max).num_rows =
        ⌊Y / 2⌋ + 1 := by
  unfold grid_init calc_step
  simp only [hx, hy]
  exact ⟨by rw [pyInt_floor_of_nonneg X hX], by rw [pyInt_floor_of_nonneg Y hY]⟩

/-- Modelled from the spec: a concrete geodesic engine standing in for the
absent `engine/kinematics.py`, used only to instantiate witnesses.  Flat
linear model: `get_vincenty_x` scales the longitude difference and
`get_vincenty_y` the latitude difference (both vanish when the two points
coincide, as spec §4.1 requires). -/
def flatVincentyX (o p : ℚ × ℚ) : ℚ := (p.2 - o.2) * 82227

/-- Modelled from the spec: northward companion of `flatVincentyX`. -/
def flatVincentyY (o p : ℚ × ℚ) : ℚ := (p.1 - o.1) * 111320

/-- Modelled from the spec: `meters_to_lat`, inverse scale of
`flatVincentyY`. -/
def flatMetersToLat (m : ℚ) : ℚ := m / 111320

/-- Modelled from the spec: `meters_to_long` at a fixed latitude, inverse
scale of `flatVincentyX`. -/
def flatMetersToLong (m : ℚ) (_lat : ℚ) : ℚ := m / 82227

/-- Witness for C8 at a bounding box spanning `X = 5` meters east and
`Y = 7` meters north under the flat engine. -/
theorem c8_witness :
    flatVincentyX (42, -76) (42 + 7 / 111320, -76 + 5 / 82227) = 5 ∧
    flatVincentyY (42, -76) (42 + 7 / 111320, -76 + 5 / 82227) = 7 ∧
    (0 : ℚ) ≤ 5 ∧ (0 : ℚ) ≤ 7 ∧
    ((grid_init flatVincentyX flatVincentyY flatMetersToLat flatMetersToLong
        42 (42 + 7 / 111320) (-76) (-76 + 5 / 82227)).num_cols = ⌊(5 : ℚ) / 2⌋ + 1 ∧
      (grid_init flatVincentyX flatVincentyY flatMetersToLat flatMetersToLong
        42 (42 + 7 / 111320) (-76) (-76 + 5 / 82227)).num_rows = ⌊(7 : ℚ) / 2⌋ + 1) := by
  refine ⟨by norm_num [flatVincentyX], by norm_num [flatVincentyY], by norm_num,
    by norm_num, ?_⟩
  exact c8_grid_dimensions flatVincentyX flatVincentyY flatMetersToLat
    flatMetersToLong 42 (42 + 7 / 111320) (-76) (-76 + 5 / 82227) 5 7
    (by norm_num [flatVincentyX]) (by norm_num [flatVincentyY])
    (by norm_num) (by norm_num)

/-- C5 counterexample: the claim says a degenerate bounding box
(`lat_min = lat_max`, `long_min = long_max`) is rejected at construction
time, but `Grid.__init__` contains no validity check and no raise statement:
at the concrete degenerate box `(42, 42, -76, -76)` the constructor returns
normally, producing a usable 1 × 1 grid with a node stored at `(0, 0)`. -/
theorem c5_counterexample :
    (grid_init flatVincentyX flatVincentyY flatMetersToLat flatMetersToLong
        42 42 (-76) (-76)).num_rows = 1 ∧
    (grid_init flatVincentyX flatVincentyY flatMetersToLat flatMetersToLong
        42 42 (-76) (-76)).num_cols = 1 ∧
    (grid_init flatVincentyX flatVincentyY flatMetersToLat flatMetersToLong
        42 42 (-76) (-76)).nodes (0, 0) ≠ none := by
  refine ⟨?_, ?_, ?_⟩ <;>
    norm_num [grid_init, calc_step, flatVincentyX, flatVincentyY, pyInt,
      pyFloorDiv, generate_nodes, serpentineColumn, serpentineCell, writeNode,
      List.range_succ, Option.some_ne_none]

/-- C5 amended: constructing a Grid from a degenerate bounding box of zero
extent is NOT rejected — for any geodesic engine whose extent functions
return 0 on coinciding points (spec §4.1), the constructor runs to completion
and produces a 1 × 1 grid. -/
theorem c5_degenerate_not_rejected (gx gy : ℚ × ℚ → ℚ × ℚ → ℚ)
    (mtl : ℚ → ℚ) (mtlo : ℚ → ℚ → ℚ) (lat long : ℚ)
    (hx : gx (lat, long) (lat, long) = 0) (hy : gy (lat, long) (lat, long) = 0) :
    (grid_init gx gy mtl mtlo lat lat long long).num_rows = 1 ∧
      (grid_init gx gy mtl mtlo lat lat long long).num_cols = 1 := by
  unfold grid_init calc_step
  simp only [hx, hy]
  constructor <;> · norm_num [pyInt, pyFloorDiv]

/-- Witness for the amended C5 at the concrete degenerate box under the flat
engine. -/
theorem c5_witness :
    flatVincentyX (42, -76) (42, -76) = 0 ∧
    flatVincentyY (42, -76) (42, -76) = 0 ∧
    ((grid_init flatVincentyX flatVincentyY flatMetersToLat flatMetersToLong
        42 42 (-76) (-76)).num_rows = 1 ∧
      (grid_init flatVincentyX flatVincentyY flatMetersToLat flatMetersToLong
        42 42 (-76) (-76)).num_cols = 1) :=
  ⟨by norm_num [flatVincentyX], by norm_num [flatVincentyY],
    c5_degenerate_not_rejected flatVincentyX flatVincentyY flatMetersToLat
      flatMetersToLong 42 (-76) (by norm_num [flatVincentyX])
      (by norm_num [flatVincentyY])⟩

/-- Embeds `Grid.is_on_border` (grid.py lines 139-161) over the activity map
`active : row → col → Bool` of the grid's nodes (the `Node` class of the
absent `engine/node.py` carries, per the spec's data model, a single mutable
`active` flag, read here for both `is_active_node()` and `is_active()`):
clamp a window around `(row, col)`, report a border when the clamped window
touches `0`/`col_limit`/`row_limit`, otherwise scan
`range(min_col, max_col) × range(min_row, max_row)` for an inactive node. -/
def is_on_border (active : Nat → Nat → Bool) (row col row_limit col_limit : Nat) :
    Bool :=
  let min_col := max 0 (col - 1)
  let min_row := max 0 (row - 1)
  let max_col := min col_limit (col + 1)
  let max_row := min row_limit (row + 1)
  if min_col = 0 ∨ min_row = 0 ∨ max_col = col_limit ∨ max_row = row_limit then
    true
  else
    (List.range' min_col (max_col - min_col)).any fun c =>
      (List.range' min_row (max_row - min_row)).any fun r => !(active r c)

/-- Embeds `Grid.find_border_nodes` (grid.py lines 163-190): scan all
positions in row-major order and collect the active nodes for which
`is_on_border(row, col, rows - 1, cols - 1)` holds; these are exactly the
nodes whose `set_border_node()` flag the pass sets and the content of the
resulting `border_nodes` list. -/
def find_border_nodes (active : Nat → Nat → Bool) (rows cols : Nat) :
    List (Nat × Nat) :=
  (List.range rows).bind fun r =>
    (List.range cols).filterMap fun c =>
      if active r c && is_on_border active r c (rows - 1) (cols - 1) then
        some (r, c)
      else none

/-- Activity map of a fully-activated grid. -/
def fullyActive : Nat → Nat → Bool := fun _ _ => true

/-- C1 divergence, evaluated at the failing input (a fully activated 5 × 5
grid): the pass marks 24 border nodes, not the perimeter count
`2 * (5 + 5) - 4 = 16` the claim requires; in particular the interior node
(row 2, col 1) is marked although it is not on the outer edge and every node
of its 3 × 3 neighborhood is active — `is_on_border`'s clamped-window test
`min_col == 0` also fires one cell away from the edge, and the neighbor scan
`range(min_col, max_col)` with `max_col = min(col_limit, col + 1)` never
reaches the right/top neighbors. -/
theorem c1_border_analysis_divergence :
    (find_border_nodes fullyActive 5 5).length = 24 ∧
    (2, 1) ∈ find_border_nodes fullyActive 5 5 ∧
    (find_border_nodes fullyActive 5 5).length ≠ 2 * (5 + 5) - 4 := by
  refine ⟨by decide, by decide, by decide⟩

/-- Robot state during `roomba_mover`: planar position and heading of
`self.state`, plus the loop's local elapsed-time accumulator `dt`. -/
structure RoombaState where
  x : ℚ
  y : ℚ
  heading : ℚ
  dt : ℚ

/-- Embeds `Robot.move_forward` (engine/robot.py lines 98-104) at the default
`dt = 1`; `math.cos` / `math.sin` are taken as abstract parameters.  Note the
source computes `new_y` from `self.state[0]` (the x coordinate), not
`state[1]`; the embedding reproduces that. -/
def move_forward (cosF sinF : ℚ → ℚ) (dist : ℚ) (s : RoombaState) : RoombaState :=
  { s with
    x := npRound3 (s.x + dist * cosF s.heading * 1),
    y := npRound3 (s.x + dist * sinF s.heading * 1) }

/-- Embeds `Robot.turn` (engine/robot.py lines 109-114) acting on a
`RoombaState`, at the default `dt = 1`. -/
def turnState (turn_angle : ℚ) (s : RoombaState) : RoombaState :=
  { s with heading := Robot.turn s.heading turn_angle 1 }

/-- Embeds one iteration of the `while not exit_boolean` body of
`Robot.roomba_mover` (engine/robot.py lines 180-193): when the position
exceeds the grid's physical extent (`x ∉ [0, long_max - long_min]` or
`y ∉ [0, lat_max - lat_min]`), back up (`move_forward(-3)`) and turn by
`0.5233` rad, else drive forward (`move_forward(3)`); then `dt += dt`. -/
def roombaStep (cosF sinF : ℚ → ℚ) (xBound yBound : ℚ) (s : RoombaState) :
    RoombaState :=
  let moved :=
    if s.x < 0 ∨ s.x > xBound ∨ s.y < 0 ∨ s.y > yBound then
      turnState (5233 / 10000) (move_forward cosF sinF (-3) s)
    else
      move_forward cosF sinF 3 s
  { moved with dt := moved.dt + moved.dt }

/-- Runs `n` iterations of the roomba loop body. -/
def roombaIter (cosF sinF : ℚ → ℚ) (xB yB : ℚ) : Nat → RoombaState → RoombaState
  | 0, s => s
  | n + 1, s => roombaIter cosF sinF xB yB n (roombaStep cosF sinF xB yB s)

/-- Loop state at entry of `roomba_mover`: robot position and heading, with
the local accumulator initialized by `dt = 0` (engine/robot.py line 177). -/
def roombaInit (x y heading : ℚ) : RoombaState :=
  { x := x, y := y, heading := heading, dt := 0 }

/-- Exit condition `exit_boolean = (dt > time_limit)` as evaluated after the
`(n + 1)`-st iteration of the loop body; `roomba_mover` leaves the loop and
sets `phase = COMPLETE` exactly when this first becomes true. -/
def roombaExits (cosF sinF : ℚ → ℚ) (xB yB time_limit : ℚ) (s0 : RoombaState)
    (n : Nat) : Prop :=
  (roombaIter cosF sinF xB yB (n + 1) s0).dt > time_limit

lemma roombaStep_dt (cosF sinF : ℚ → ℚ) (xB yB : ℚ) (s : RoombaState) :
    (roombaStep cosF sinF xB yB s).dt = s.dt + s.dt := by
  unfold roombaStep turnState move_forward
  split_ifs <;> rfl

lemma roombaIter_dt (cosF sinF : ℚ → ℚ) (xB yB : ℚ) (n : Nat) (s : RoombaState)
    (h : s.dt = 0) : (roombaIter cosF sinF xB yB n s).dt = 0 := by
  induction n generalizing s with
  | zero => exact h
  | succ k ih =>
    show (roombaIter cosF sinF xB yB k (roombaStep cosF sinF xB yB s)).dt = 0
    exact ih _ (by rw [roombaStep_dt, h]; ring)

/-- C2 divergence: the elapsed-time accumulator is advanced by `dt += dt`
starting from `dt = 0`, so it stays 0 forever and, for every nonnegative
`time_limit`, the exit test `dt > time_limit` fails after every iteration:
`roomba_mover` never leaves its loop (and never reaches
`phase = COMPLETE`), contradicting the claim that it performs finitely many
control steps. -/
theorem c2_roomba_never_exits (cosF sinF : ℚ → ℚ) (xB yB time_limit x y h : ℚ)
    (hT : 0 ≤ time_limit) (n : Nat) :
    ¬ roombaExits cosF sinF xB yB time_limit (roombaInit x y h) n := by
  unfold roombaExits
  rw [roombaIter_dt cosF sinF xB yB (n + 1) _ rfl]
  exact not_lt.mpr hT

/-- Witness for C2 at a concrete instantiation (unit trig stubs, a 10 × 10 m
grid, `time_limit = 0`, robot starting at `(1, 1)` heading 0, after 4
iterations). -/
theorem c2_witness :
    (0 : ℚ) ≤ 0 ∧
      ¬ roombaExits (fun _ => 1) (fun _ => 0) 10 10 0 (roombaInit 1 1 0) 3 :=
  ⟨le_refl 0,
    c2_roomba_never_exits (fun _ => 1) (fun _ => 0) 10 10 0 1 1 0 (le_refl 0) 3⟩

/-- Phase enumeration of `engine/robot.py` (lines 7-17). -/
inductive Phase where
  | SETUP
  | TRAVERSE
  | AVOID_OBSTACLE
  | RETURN
  | DOCKING
  | COMPLETE
  | FAULT
deriving DecidableEq, Repr

/-- Control-mode enumeration of `engine/robot.py` (lines 20-26). -/
inductive Control_Mode where
  | LAWNMOVER
  | ROOMBA
  | MANUAL
deriving DecidableEq, Repr

/-- Embeds `Robot.execute_traversal` (engine/robot.py lines 127-132).  The
`match` dispatches to `lawn_mover` (whose own return value is the mutated
remainder deque) or `roomba_mover`, but discards both results, and the
function body has no `return` statement: the Python call returns `None` on
every path, modelled as `none`.  The traversal routine is a parameter
`lawnMover`, so the result below holds whatever the motion controller
computes. -/
def execute_traversal (lawnMover : List (Int × Int) → List (Int × Int))
    (queue : List (Int × Int)) (control_mode : Control_Mode) :
    Option (List (Int × Int)) :=
  match control_mode with
  | .LAWNMOVER => (fun _ => none) (lawnMover queue)
  | .ROOMBA => none
  | .MANUAL => none

/-- Embeds the `TRAVERSE` branch of `Mission.execute_mission` (mission.py
lines 52-54): the new value stored into `self.waypoints_to_visit` by
`self.waypoints_to_visit = self.robot.execute_traversal(...)`.  (The call
site also passes only two of the five required positional arguments, which in
CPython raises `TypeError` before the body even runs; the embedding models
the assignment the branch performs when the call goes through.) -/
def mission_traverse_dispatch (lawnMover : List (Int × Int) → List (Int × Int))
    (cm : Control_Mode) (queue : List (Int × Int)) : Option (List (Int × Int)) :=
  execute_traversal lawnMover queue cm

/-- C3 divergence: one dispatch of the mission loop's TRAVERSE
branch stores `None` into `waypoints_to_visit` — never the remaining deque of
unvisited waypoints — for every control mode and every behavior of the motion
controller. -/
theorem c3_traverse_stores_none
    (lawnMover : List (Int × Int) → List (Int × Int)) (cm : Control_Mode)
    (queue : List (Int × Int)) :
    mission_traverse_dispatch lawnMover cm queue = none := by
  cases cm <;> rfl

section Serpentine

variable (gx gy : ℚ × ℚ → ℚ × ℚ → ℚ) (lat0 long0 : ℚ) (rows : Nat) (ls lo : ℚ)

lemma serpentineCell_other (i j : Nat) (acc2 : Nat × Nat → Option NodeG)
    (p : Nat × Nat) (hp : p.2 ≠ i) :
    serpentineCell gx gy lat0 long0 rows ls lo i acc2 j p = acc2 p := by
  have h1 : p ≠ (j, i) := fun he => hp (by rw [he])
  have h2 : p ≠ (rows - (j + 1), i) := fun he => hp (by rw [he])
  unfold serpentineCell writeNode
  by_cases hi : i % 2 = 0 <;> simp [hi, h1, h2]

lemma serpentineFold_other (i : Nat) (l : List Nat)
    (acc : Nat × Nat → Option NodeG) (p : Nat × Nat) (hp : p.2 ≠ i) :
    (l.foldl (serpentineCell gx gy lat0 long0 rows ls lo i) acc) p = acc p := by
  induction l generalizing acc with
  | nil => rfl
  | cons a t ih =>
    rw [List.foldl_cons, ih]
    exact serpentineCell_other gx gy lat0 long0 rows ls lo i a acc p hp

lemma serpentineCell_even_lookup (i j : Nat) (hi : i % 2 = 0)
    (acc2 : Nat × Nat → Option NodeG) (r : Nat) :
    serpentineCell gx gy lat0 long0 rows ls lo i acc2 j (r, i) =
      if r = j then
        some (mkNode gx gy (lat0, long0) (lat0 + (j : ℚ) * ls)
          (long0 + (i : ℚ) * lo))
      else acc2 (r, i) := by
  unfold serpentineCell writeNode
  simp [hi, Prod.ext_iff]

lemma serpentineCell_odd_lookup (i j : Nat) (hi : i % 2 = 1)
    (acc2 : Nat × Nat → Option NodeG) (r : Nat) :
    serpentineCell gx gy lat0 long0 rows ls lo i acc2 j (r, i) =
      if r = rows - (j + 1) then
        some (mkNode gx gy (lat0, long0)
          (lat0 + ((rows : ℚ) - 1) * ls - (j : ℚ) * ls) (long0 + (i : ℚ) * lo))
      else acc2 (r, i) := by
  have hi0 : ¬ i % 2 = 0 := by omega
  unfold serpentineCell writeNode
  simp [hi0, Prod.ext_iff]

lemma serpentineFold_even (i : Nat) (hi : i % 2 = 0) (k : Nat) :
    ∀ (acc : Nat × Nat → Option NodeG) (r : Nat),
      ((List.range k).foldl (serpentineCell gx gy lat0 long0 rows ls lo i) acc)
          (r, i) =
        if r < k then
          some (mkNode gx gy (lat0, long0) (lat0 + (r : ℚ) * ls)
            (long0 + (i : ℚ) * lo))
        else acc (r, i) := by
  induction k with
  | zero => intro acc r; simp
  | succ k ih =>
    intro acc r
    rw [List.range_succ, List.foldl_append, List.foldl_cons, List.foldl_nil,
      serpentineCell_even_lookup gx gy lat0 long0 rows ls lo i k hi _ r]
    by_cases hr : r = k
    · subst hr
      simp
    · rw [if_neg hr, ih acc r]
      by_cases h2 : r < k
      · rw [if_pos h2, if_pos (by omega)]
      · rw [if_neg h2, if_neg (by omega)]

lemma serpentineFold_odd (i : Nat) (hi : i % 2 = 1) (k : Nat) (hk : k ≤ rows) :
    ∀ (acc : Nat × Nat → Option NodeG) (r : Nat),
      ((List.range k).foldl (serpentineCell gx gy lat0 long0 rows ls lo i) acc)
          (r, i) =
        if rows - k ≤ r ∧ r < rows then
          some (mkNode gx gy (lat0, long0)
            (lat0 + ((rows : ℚ) - 1) * ls - ((rows - 1 - r : Nat) : ℚ) * ls)
            (long0 + (i : ℚ) * lo))
        else acc (r, i) := by
  induction k with
  | zero =>
    intro acc r
    rw [List.range_zero, List.foldl_nil, if_neg (by omega)]
  | succ k ih =>
    intro acc r
    rw [List.range_succ, List.foldl_append, List.foldl_cons, List.foldl_nil,
      serpentineCell_odd_lookup gx gy lat0 long0 rows ls lo i k hi _ r]
    by_cases hr : r = rows - (k + 1)
    · subst hr
      rw [if_pos rfl, if_pos (by omega)]
      have hjr : rows - 1 - (rows - (k + 1)) = k := by omega
      rw [hjr]
    · rw [if_neg hr, ih (by omega) acc r]
      by_cases h2 : rows - k ≤ r ∧ r < rows
      · rw [if_pos h2, if_pos (by omega)]
      · rw [if_neg h2, if_neg (by omega)]

lemma serpentineFoldCols (l : List Nat) :
    ∀ (acc : Nat × Nat → Option NodeG) (r c : Nat),
      ((l.foldl (fun acc (i : Nat) =>
          serpentineColumn gx gy lat0 long0 rows ls lo i acc) acc)) (r, c) =
        if c ∈ l ∧ r < rows then
          some (mkNode gx gy (lat0, long0) (lat0 + (r : ℚ) * ls)
            (long0 + (c : ℚ) * lo))
        else acc (r, c) := by
  induction l with
  | nil => intro acc r c; simp
  | cons a t ih =>
    intro acc r c
    rw [List.foldl_cons, ih]
    by_cases hct : c ∈ t ∧ r < rows
    · rw [if_pos hct, if_pos ⟨by simp [hct.1], hct.2⟩]
    · rw [if_neg hct]
      by_cases hca : c = a
      · subst hca
        unfold serpentineColumn
        rcases Nat.mod_two_eq_zero_or_one c with hpar | hpar
        · rw [serpentineFold_even gx gy lat0 long0 rows ls lo c hpar rows acc r]
          by_cases hr : r < rows
          · rw [if_pos hr, if_pos ⟨by simp, hr⟩]
          · rw [if_neg hr, if_neg (fun h => hr h.2)]
        · rw [serpentineFold_odd gx gy lat0 long0 rows ls lo c hpar rows le_rfl acc r]
          by_cases hr : r < rows
          · rw [if_pos ⟨by omega, hr⟩, if_pos ⟨by simp, hr⟩]
            have hcast : ((rows - 1 - r : Nat) : ℚ) = (rows : ℚ) - 1 - (r : ℚ) := by
              rw [Nat.cast_sub (by omega : r ≤ rows - 1),
                Nat.cast_sub (by omega : 1 ≤ rows)]
              norm_num
            have harith : lat0 + ((rows : ℚ) - 1) * ls -
                ((rows - 1 - r : Nat) : ℚ) * ls = lat0 + (r : ℚ) * ls := by
              rw [hcast]; ring
            rw [harith]
          · rw [if_neg (by omega), if_neg (fun h => hr h.2)]
      · unfold serpentineColumn
        rw [serpentineFold_other gx gy lat0 long0 rows ls lo a _ acc (r, c) hca]
        rw [if_neg ?_]
        intro h
        rcases List.mem_cons.mp h.1 with h1 | h1
        · exact hca h1
        · exact hct ⟨h1, h.2⟩

lemma generate_nodes_lookup (cols : Nat) (r c : Nat) (hr : r < rows)
    (hc : c < cols) :
    generate_nodes gx gy lat0 long0 rows cols ls lo (r, c) =
      some (mkNode gx gy (lat0, long0) (lat0 + (r : ℚ) * ls)
        (long0 + (c : ℚ) * lo)) := by
  unfold generate_nodes
  rw [serpentineFoldCols gx gy lat0 long0 rows ls lo (List.range cols) _ r c,
    if_pos ⟨List.mem_range.mpr hc, hr⟩]

end Serpentine

/-- C9: for every constructed grid (with positive per-step latitude and
longitude increments), the serpentine generation order still places the node
stored at `(row, col)` at latitude `lat_min + row * lat_step` and longitude
`long_min + col * long_step`; consequently latitude is strictly increasing
with the row at fixed column and longitude strictly increasing with the
column at fixed row. -/
theorem c9_serpentine_coordinates (gx gy : ℚ × ℚ → ℚ × ℚ → ℚ)
    (lat0 long0 : ℚ) (rows cols : Nat) (ls lo : ℚ)
    (hls : 0 < ls) (hlo : 0 < lo) :
    (∀ r c, r < rows → c < cols →
      generate_nodes gx gy lat0 long0 rows cols ls lo (r, c) =
        some (mkNode gx gy (lat0, long0) (lat0 + (r : ℚ) * ls)
          (long0 + (c : ℚ) * lo))) ∧
    (∀ r r' c, r < r' → r' < rows → c < cols →
      ∃ a b, generate_nodes gx gy lat0 long0 rows cols ls lo (r, c) = some a ∧
        generate_nodes gx gy lat0 long0 rows cols ls lo (r', c) = some b ∧
        a.lat < b.lat) ∧
    (∀ r c c', c < c' → c' < cols → r < rows →
      ∃ a b, generate_nodes gx gy lat0 long0 rows cols ls lo (r, c) = some a ∧
        generate_nodes gx gy lat0 long0 rows cols ls lo (r, c') = some b ∧
        a.long < b.long) := by
  refine ⟨fun r c hr hc =>
      generate_nodes_lookup gx gy lat0 long0 rows ls lo cols r c hr hc,
    fun r r' c hrr hr' hc => ?_, fun r c c' hcc hc' hr => ?_⟩
  · refine ⟨_, _,
      generate_nodes_lookup gx gy lat0 long0 rows ls lo cols r c
        (by omega) hc,
      generate_nodes_lookup gx gy lat0 long0 rows ls lo cols r' c hr' hc, ?_⟩
    show lat0 + (r : ℚ) * ls < lat0 + (r' : ℚ) * ls
    have : (r : ℚ) < (r' : ℚ) := by exact_mod_cast hrr
    nlinarith
  · refine ⟨_, _,
      generate_nodes_lookup gx gy lat0 long0 rows ls lo cols r c hr
        (by omega),
      generate_nodes_lookup gx gy lat0 long0 rows ls lo cols r c' hr hc', ?_⟩
    show long0 + (c : ℚ) * lo < long0 + (c' : ℚ) * lo
    have : (c : ℚ) < (c' : ℚ) := by exact_mod_cast hcc
    nlinarith

/-- Witness for C9 on a 2 × 3 grid with unit steps, zero vincenty stubs,
origin `(10, 20)`. -/
theorem c9_witness :
    (0 : ℚ) < 1 ∧ (0 : ℚ) < 1 ∧
      ((∀ r c, r < 2 → c < 3 →
        generate_nodes (fun _ _ => 0) (fun _ _ => 0) 10 20 2 3 1 1 (r, c) =
          some (mkNode (fun _ _ => 0) (fun _ _ => 0) (10, 20)
            (10 + (r : ℚ) * 1) (20 + (c : ℚ) * 1))) ∧
      (∀ r r' c, r < r' → r' < 2 → c < 3 →
        ∃ a b, generate_nodes (fun _ _ => 0) (fun _ _ => 0) 10 20 2 3 1 1 (r, c) = some a ∧
          generate_nodes (fun _ _ => 0) (fun _ _ => 0) 10 20 2 3 1 1 (r', c) = some b ∧
          a.lat < b.lat) ∧
      (∀ r c c', c < c' → c' < 3 → r < 2 →
        ∃ a b, generate_nodes (fun _ _ => 0) (fun _ _ => 0) 10 20 2 3 1 1 (r, c) = some a ∧
          generate_nodes (fun _ _ => 0) (fun _ _ => 0) 10 20 2 3 1 1 (r, c') = some b ∧
          a.long < b.long)) :=
  ⟨by norm_num, by norm_num,
    c9_serpentine_coordinates (fun _ _ => 0) (fun _ _ => 0) 10 20 2 3 1 1
      (by norm_num) (by norm_num)⟩

/-- Straight segment of `len` grid positions starting at `p`, advancing by
the direction vector `d = (row step, col step)` each cell.  Ground-truth
building block for the spiral path. -/
def seg (p d : Int × Int) (len : Nat) : List (Int × Int) :=
  (List.range len).map fun (k : Nat) => (p.1 + (k : Int) * d.1, p.2 + (k : Int) * d.2)

lemma mem_seg (q p d : Int × Int) (len : Nat) :
    q ∈ seg p d len ↔
      ∃ k : Nat, k < len ∧ q = (p.1 + (k : Int) * d.1, p.2 + (k : Int) * d.2) := by
  simp only [seg, List.mem_map, List.mem_range]
  constructor
  · rintro ⟨k, hk, rfl⟩
    exact ⟨k, hk, rfl⟩
  · rintro ⟨k, hk, rfl⟩
    exact ⟨k, hk, rfl⟩

lemma seg_zero (p d : Int × Int) : seg p d 0 = [] := rfl

lemma seg_cons (p d : Int × Int) (len : Nat) :
    seg p d (len + 1) = p :: seg (p.1 + d.1, p.2 + d.2) d len := by
  unfold seg
  rw [List.range_succ_eq_map, List.map_cons, List.map_map]
  refine congrArg₂ _ (by simp) ?_
  refine congrArg (List.map · (List.range len)) ?_
  funext k
  simp only [Function.comp, Prod.mk.injEq]
  constructor <;> push_cast <;> ring

lemma turn_mod_lt (t : Nat) : t % 4 = 0 ∨ t % 4 = 1 ∨ t % 4 = 2 ∨ t % 4 = 3 := by
  omega

lemma cell_inj (t : Nat) (r c : Int) (j k : Int)
    (h : (r + j * stepRow t, c + j * stepCol t) =
      (r + k * stepRow t, c + k * stepCol t)) : j = k := by
  rcases turn_mod_lt t with h4 | h4 | h4 | h4 <;>
    simp only [stepRow, stepCol, h4, Prod.mk.injEq] at h <;> omega

lemma seg_nodup (t : Nat) (r c : Int) (len : Nat) :
    (seg (r, c) (stepRow t, stepCol t) len).Nodup := by
  unfold seg
  refine List.Nodup.map_on ?_ (List.nodup_range len)
  intro a _ b _ hab
  exact_mod_cast cell_inj t r c a b hab

lemma spiralIter_add (rows cols a b : Nat) (s : SpiralState) :
    spiralIter rows cols (a + b) s =
      spiralIter rows cols b (spiralIter rows cols a s) := by
  induction a generalizing s with
  | zero => rw [Nat.zero_add]; rfl
  | succ a ih =>
    have : a + 1 + b = (a + b) + 1 := by omega
    rw [this]
    show spiralIter rows cols (a + b) (spiralStep rows cols s) = _
    rw [ih (spiralStep rows cols s)]
    rfl

lemma spiralStep_waypoints_length (rows cols : Nat) (s : SpiralState) :
    (spiralStep rows cols s).waypoints.length = s.waypoints.length + 1 := by
  unfold spiralStep
  dsimp only
  split_ifs <;> simp

lemma spiralIter_waypoints_length (rows cols n : Nat) :
    ∀ s : SpiralState,
      (spiralIter rows cols n s).waypoints.length = s.waypoints.length + n := by
  induction n with
  | zero => intro s; rfl
  | succ n ih =>
    intro s
    show (spiralIter rows cols n (spiralStep rows cols s)).waypoints.length = _
    rw [ih, spiralStep_waypoints_length]
    omega

lemma seg_one (p d : Int × Int) : seg p d 1 = [p] := by
  rw [seg_cons, seg_zero]

/-- Running the spiral loop along an unobstructed straight segment: if the
next `len - 1` cells in the current direction are in bounds and unvisited,
and the cell after them is blocked (out of bounds or already visited), then
`len` iterations append exactly that segment, rotate the direction cycle
once, and move one cell in the new direction. -/
lemma spiral_run (rows cols t : Nat) :
    ∀ (len : Nat) (r c : Int) (w : List (Int × Int)),
      1 ≤ len →
      (∀ k : Nat, 1 ≤ k → k < len →
        (0 ≤ c + (k : Int) * stepCol t ∧ c + (k : Int) * stepCol t < (cols : Int) ∧
         0 ≤ r + (k : Int) * stepRow t ∧ r + (k : Int) * stepRow t < (rows : Int)) ∧
        (r + (k : Int) * stepRow t, c + (k : Int) * stepCol t) ∉ w) →
      (¬ (0 ≤ c + (len : Int) * stepCol t ∧ c + (len : Int) * stepCol t < (cols : Int) ∧
          0 ≤ r + (len : Int) * stepRow t ∧ r + (len : Int) * stepRow t < (rows : Int)) ∨
        (r + (len : Int) * stepRow t, c + (len : Int) * stepCol t) ∈ w) →
      spiralIter rows cols len ⟨r, c, t, w⟩ =
        ⟨r + ((len : Int) - 1) * stepRow t + stepRow ((t + 1) % 4),
         c + ((len : Int) - 1) * stepCol t + stepCol ((t + 1) % 4),
         (t + 1) % 4,
         w ++ seg (r, c) (stepRow t, stepCol t) len⟩ := by
  intro len
  induction len with
  | zero => intro r c w h1; omega
  | succ n ih =>
    intro r c w _ ha hb
    have hone : ((1 : Nat) : Int) = 1 := rfl
    rcases Nat.eq_zero_or_pos n with hn | hn
    · subst hn
      show spiralStep rows cols ⟨r, c, t, w⟩ = _
      have hC : ¬ (0 ≤ c + stepCol t ∧ c + stepCol t < (cols : Int) ∧
          0 ≤ r + stepRow t ∧ r + stepRow t < (rows : Int) ∧
          (r + stepRow t, c + stepCol t) ∉ w ++ [(r, c)]) := by
        rw [hone, one_mul, one_mul] at hb
        rcases hb with hb | hb
        · intro hcon
          exact hb ⟨hcon.1, hcon.2.1, hcon.2.2.1, hcon.2.2.2.1⟩
        · intro hcon
          exact hcon.2.2.2.2 (List.mem_append_left _ hb)
      unfold spiralStep
      dsimp only
      rw [if_neg hC]
      simp only [SpiralState.mk.injEq]
      refine ⟨by push_cast; ring, by push_cast; ring, by trivial, by rw [seg_one]⟩
    · have hshiftR : ∀ k : Int, r + stepRow t + k * stepRow t =
          r + (k + 1) * stepRow t := by intro k; ring
      have hshiftC : ∀ k : Int, c + stepCol t + k * stepCol t =
          c + (k + 1) * stepCol t := by intro k; ring
      have hshift : ∀ k : Int,
          (r + stepRow t + k * stepRow t, c + stepCol t + k * stepCol t) =
            (r + (k + 1) * stepRow t, c + (k + 1) * stepCol t) := by
        intro k
        rw [Prod.mk.injEq]
        exact ⟨hshiftR k, hshiftC k⟩
      have hcell0 : (r + (0 : Int) * stepRow t, c + (0 : Int) * stepCol t) = (r, c) := by
        rw [Prod.mk.injEq]
        constructor <;> ring
      have hstep : spiralStep rows cols ⟨r, c, t, w⟩ =
          ⟨r + stepRow t, c + stepCol t, t, w ++ [(r, c)]⟩ := by
        have hk1 := ha 1 le_rfl (by omega)
        rw [hone, one_mul, one_mul] at hk1
        have hne : (r + stepRow t, c + stepCol t) ≠ (r, c) := by
          intro he
          have h10 : (1 : Int) = 0 := by
            apply cell_inj t r c
            rw [one_mul, one_mul, hcell0]
            exact he
          omega
        have hC : (0 ≤ c + stepCol t ∧ c + stepCol t < (cols : Int) ∧
            0 ≤ r + stepRow t ∧ r + stepRow t < (rows : Int) ∧
            (r + stepRow t, c + stepCol t) ∉ w ++ [(r, c)]) := by
          refine ⟨hk1.1.1, hk1.1.2.1, hk1.1.2.2.1, hk1.1.2.2.2, ?_⟩
          intro hmem
          rcases List.mem_append.mp hmem with hmem | hmem
          · exact hk1.2 hmem
          · exact hne (List.mem_singleton.mp hmem)
        unfold spiralStep
        dsimp only
        rw [if_pos hC]
      show spiralIter rows cols n (spiralStep rows cols ⟨r, c, t, w⟩) = _
      rw [hstep, ih (r + stepRow t) (c + stepCol t) (w ++ [(r, c)]) hn ?ha ?hb]
      case ha =>
        intro k hk1 hkn
        have hk := ha (k + 1) (by omega) (by omega)
        have hcast : ((k + 1 : Nat) : Int) = (k : Int) + 1 := by push_cast; ring
        rw [hcast] at hk
        constructor
        · rw [hshiftC (k : Int), hshiftR (k : Int)]
          exact hk.1
        · rw [hshift (k : Int)]
          intro hmem
          rcases List.mem_append.mp hmem with hm | hm
          · exact hk.2 hm
          · have he := List.mem_singleton.mp hm
            have hk10 : (k : Int) + 1 = 0 := by
              apply cell_inj t r c
              rw [hcell0]
              exact he
            omega
      case hb =>
        have hcast : ((n + 1 : Nat) : Int) = (n : Int) + 1 := by push_cast; ring
        rw [hcast] at hb
        rw [hshiftC (n : Int), hshiftR (n : Int)]
        rcases hb with hb | hb
        · exact Or.inl hb
        · exact Or.inr (List.mem_append_left _ hb)
      simp only [SpiralState.mk.injEq]
      refine ⟨by push_cast; ring, by push_cast; ring, by trivial, ?_⟩
      rw [seg_cons, List.append_assoc]
      rfl

/-- Outer ring of the rectangle `[r0, r0 + m) × [c0, c0 + n)` in spiral visit
order starting at `(r0, c0)`: bottom row rightward, right column upward, top
row leftward, left column downward (ground truth for the spiral). -/
def ringPath (r0 c0 : Int) (m n : Nat) : List (Int × Int) :=
  if m = 1 then seg (r0, c0) (0, 1) n
  else if n = 1 then seg (r0, c0) (1, 0) m
  else seg (r0, c0) (0, 1) n ++
    (seg (r0 + 1, c0 + (n : Int) - 1) (1, 0) (m - 1) ++
      (seg (r0 + (m : Int) - 1, c0 + (n : Int) - 2) (0, -1) (n - 1) ++
        seg (r0 + (m : Int) - 2, c0) (-1, 0) (m - 2)))

/-- Full inward-spiral path of the rectangle `[r0, r0 + m) × [c0, c0 + n)`
(ground truth): the outer ring followed by the spiral of the interior. -/
def spiralList (r0 c0 : Int) (m n : Nat) : List (Int × Int) :=
  if _h : m = 0 ∨ n = 0 then []
  else ringPath r0 c0 m n ++ spiralList (r0 + 1) (c0 + 1) (m - 2) (n - 2)
termination_by m
decreasing_by
  simp_wf
  omega

lemma ringPath_mem (r0 c0 : Int) (m n : Nat) (hm : 1 ≤ m) (hn : 1 ≤ n)
    (q : Int × Int) :
    q ∈ ringPath r0 c0 m n ↔
      (r0 ≤ q.1 ∧ q.1 < r0 + m ∧ c0 ≤ q.2 ∧ q.2 < c0 + n ∧
        (q.1 = r0 ∨ q.1 = r0 + m - 1 ∨ q.2 = c0 ∨ q.2 = c0 + n - 1)) := by
  unfold ringPath
  by_cases h1 : m = 1
  · subst h1
    rw [if_pos rfl, mem_seg]
    constructor
    · rintro ⟨k, hk, rfl⟩
      simp only
      omega
    · rintro ⟨ha, hb, hc, hd, _⟩
      refine ⟨(q.2 - c0).toNat, by omega, ?_⟩
      rw [Prod.ext_iff]
      simp only
      omega
  · by_cases h2 : n = 1
    · subst h2
      rw [if_neg h1, if_pos rfl, mem_seg]
      constructor
      · rintro ⟨k, hk, rfl⟩
        simp only
        omega
      · rintro ⟨ha, hb, hc, hd, _⟩
        refine ⟨(q.1 - r0).toNat, by omega, ?_⟩
        rw [Prod.ext_iff]
        simp only
        omega
    · rw [if_neg h1, if_neg h2]
      simp only [List.mem_append, mem_seg]
      constructor
      · rintro (⟨k, hk, rfl⟩ | ⟨k, hk, rfl⟩ | ⟨k, hk, rfl⟩ | ⟨k, hk, rfl⟩) <;>
          · simp only
            omega
      · rintro ⟨ha, hb, hc, hd, hbound⟩
        by_cases e1 : q.1 = r0
        · exact Or.inl ⟨(q.2 - c0).toNat, by omega,
            by rw [Prod.ext_iff]; simp only; omega⟩
        · by_cases e2 : q.2 = c0 + n - 1
          · exact Or.inr (Or.inl ⟨(q.1 - (r0 + 1)).toNat, by omega,
              by rw [Prod.ext_iff]; simp only; omega⟩)
          · by_cases e3 : q.1 = r0 + m - 1
            · exact Or.inr (Or.inr (Or.inl ⟨(c0 + n - 2 - q.2).toNat, by omega,
                by rw [Prod.ext_iff]; simp only; omega⟩))
            · exact Or.inr (Or.inr (Or.inr ⟨(r0 + m - 2 - q.1).toNat, by omega,
                by rw [Prod.ext_iff]; simp only; omega⟩))

lemma seg_nodup_d (p d : Int × Int) (hd : d ≠ (0, 0)) (len : Nat) :
    (seg p d len).Nodup := by
  unfold seg
  refine List.Nodup.map_on ?_ (List.nodup_range len)
  intro a _ b _ hab
  rw [Prod.mk.injEq] at hab
  have h1 : (a : Int) * d.1 = (b : Int) * d.1 := by linarith [hab.1]
  have h2 : (a : Int) * d.2 = (b : Int) * d.2 := by linarith [hab.2]
  have hd' : d.1 ≠ 0 ∨ d.2 ≠ 0 := by
    by_contra hcon
    push_neg at hcon
    exact hd (Prod.ext hcon.1 hcon.2)
  rcases hd' with hd' | hd'
  · exact_mod_cast mul_right_cancel₀ hd' h1
  · exact_mod_cast mul_right_cancel₀ hd' h2

lemma ringPath_nodup (r0 c0 : Int) (m n : Nat) :
    (ringPath r0 c0 m n).Nodup := by
  unfold ringPath
  by_cases h1 : m = 1
  · rw [if_pos h1]
    exact seg_nodup_d _ _ (by simp) n
  · by_cases h2 : n = 1
    · rw [if_neg h1, if_pos h2]
      exact seg_nodup_d _ _ (by simp) m
    · rw [if_neg h1, if_neg h2]
      rw [List.nodup_append, List.nodup_append, List.nodup_append]
      refine ⟨seg_nodup_d _ _ (by simp) _,
        ⟨seg_nodup_d _ _ (by simp) _,
          ⟨seg_nodup_d _ _ (by simp) _, seg_nodup_d _ _ (by simp) _, ?_⟩, ?_⟩, ?_⟩
      · intro q hq hq'
        rw [mem_seg] at hq hq'
        obtain ⟨k, hk, rfl⟩ := hq
        obtain ⟨k', hk', he⟩ := hq'
        rw [Prod.ext_iff] at he
        simp only at he
        omega
      · intro q hq hq'
        rw [List.mem_append] at hq'
        rw [mem_seg] at hq
        obtain ⟨k, hk, rfl⟩ := hq
        rcases hq' with hq' | hq' <;>
          · rw [mem_seg] at hq'
            obtain ⟨k', hk', he⟩ := hq'
            rw [Prod.ext_iff] at he
            simp only at he
            omega
      · intro q hq hq'
        rw [List.mem_append, List.mem_append] at hq'
        rw [mem_seg] at hq
        obtain ⟨k, hk, rfl⟩ := hq
        rcases hq' with hq' | hq' | hq' <;>
          · rw [mem_seg] at hq'
            obtain ⟨k', hk', he⟩ := hq'
            rw [Prod.ext_iff] at he
            simp only at he
            omega

lemma spiralList_mem (m : Nat) : ∀ (n : Nat) (r0 c0 : Int) (q : Int × Int),
    q ∈ spiralList r0 c0 m n ↔
      (r0 ≤ q.1 ∧ q.1 < r0 + m ∧ c0 ≤ q.2 ∧ q.2 < c0 + n) := by
  induction m using Nat.strong_induction_on with
  | _ m IH =>
    intro n r0 c0 q
    rw [spiralList]
    by_cases h0 : m = 0 ∨ n = 0
    · rw [dif_pos h0]
      constructor
      · intro h
        exact absurd h (List.not_mem_nil q)
      · intro h
        omega
    · rw [dif_neg h0]
      push_neg at h0
      rw [List.mem_append, ringPath_mem r0 c0 m n (by omega) (by omega) q,
        IH (m - 2) (by omega) (n - 2) (r0 + 1) (c0 + 1) q]
      omega

lemma spiralList_nodup (m : Nat) : ∀ (n : Nat) (r0 c0 : Int),
    (spiralList r0 c0 m n).Nodup := by
  induction m using Nat.strong_induction_on with
  | _ m IH =>
    intro n r0 c0
    rw [spiralList]
    by_cases h0 : m = 0 ∨ n = 0
    · rw [dif_pos h0]
      exact List.nodup_nil
    · rw [dif_neg h0]
      push_neg at h0
      rw [List.nodup_append]
      refine ⟨ringPath_nodup r0 c0 m n,
        IH (m - 2) (by omega) (n - 2) (r0 + 1) (c0 + 1), ?_⟩
      intro q hq hq'
      rw [ringPath_mem r0 c0 m n (by omega) (by omega) q] at hq
      rw [spiralList_mem (m - 2) (n - 2) (r0 + 1) (c0 + 1) q] at hq'
      omega

lemma spiralList_nil (r0 c0 : Int) (m n : Nat) (h : m = 0 ∨ n = 0) :
    spiralList r0 c0 m n = [] := by
  rw [spiralList]
  exact dif_pos h

/-- Main simulation lemma: started at the bottom-left corner of a
sub-rectangle whose outside (within the grid) is exactly the set of already
visited cells, `m * n` iterations of the spiral loop append exactly the
ground-truth spiral path of that rectangle. -/
lemma spiral_sim (rows cols : Nat) (m : Nat) :
    ∀ (n : Nat) (r0 c0 : Int) (prev : List (Int × Int)),
      1 ≤ m → 1 ≤ n → 0 ≤ r0 → 0 ≤ c0 →
      r0 + m ≤ (rows : Int) → c0 + n ≤ (cols : Int) →
      (∀ a b : Int, (a, b) ∈ prev ↔
        (0 ≤ a ∧ a < (rows : Int) ∧ 0 ≤ b ∧ b < (cols : Int) ∧
          ¬(r0 ≤ a ∧ a < r0 + m ∧ c0 ≤ b ∧ b < c0 + n))) →
      (spiralIter rows cols (m * n) ⟨r0, c0, 0, prev⟩).waypoints =
        prev ++ spiralList r0 c0 m n := by
  induction m using Nat.strong_induction_on with
  | _ m IH =>
    intro n r0 c0 prev hm hn hr0 hc0 hrm hcn hprev
    have sR0 : stepRow 0 = 0 := rfl
    have sC0 : stepCol 0 = 1 := rfl
    have sR1 : stepRow 1 = 1 := rfl
    have sC1 : stepCol 1 = 0 := rfl
    have sR2 : stepRow 2 = 0 := rfl
    have sC2 : stepCol 2 = -1 := rfl
    have sR3 : stepRow 3 = -1 := rfl
    have sC3 : stepCol 3 = 0 := rfl
    have sR01 : stepRow ((0 + 1) % 4) = 1 := rfl
    have sC01 : stepCol ((0 + 1) % 4) = 0 := rfl
    have sR12 : stepRow ((1 + 1) % 4) = 0 := rfl
    have sC12 : stepCol ((1 + 1) % 4) = -1 := rfl
    have sR23 : stepRow ((2 + 1) % 4) = -1 := rfl
    have sC23 : stepCol ((2 + 1) % 4) = 0 := rfl
    have sR30 : stepRow ((3 + 1) % 4) = 0 := rfl
    have sC30 : stepCol ((3 + 1) % 4) = 1 := rfl
    have hd0 : (stepRow 0, stepCol 0) = ((0 : Int), (1 : Int)) := rfl
    have hd1 : (stepRow 1, stepCol 1) = ((1 : Int), (0 : Int)) := rfl
    have hd2 : (stepRow 2, stepCol 2) = ((0 : Int), (-1 : Int)) := rfl
    have hd3 : (stepRow 3, stepCol 3) = ((-1 : Int), (0 : Int)) := rfl
    by_cases hm1 : m = 1
    · -- single bottom row: one straight run of n cells
      subst hm1
      rw [one_mul]
      have h1 : spiralIter rows cols n ⟨r0, c0, 0, prev⟩ =
          ⟨r0 + ((n : Int) - 1) * stepRow 0 + stepRow ((0 + 1) % 4),
           c0 + ((n : Int) - 1) * stepCol 0 + stepCol ((0 + 1) % 4),
           (0 + 1) % 4, prev ++ seg (r0, c0) (stepRow 0, stepCol 0) n⟩ := by
        refine spiral_run rows cols 0 n r0 c0 prev hn ?_ ?_
        · intro k hk1 hkn
          rw [sR0, sC0]
          refine ⟨⟨by omega, by omega, by omega, by omega⟩, ?_⟩
          intro hmem
          rw [hprev] at hmem
          omega
        · rw [sR0, sC0]
          by_cases hedge : c0 + (n : Int) * 1 < (cols : Int)
          · refine Or.inr ?_
            rw [hprev]
            omega
          · exact Or.inl (fun hcon => hedge hcon.2.1)
      rw [h1]
      show prev ++ seg (r0, c0) (stepRow 0, stepCol 0) n = _
      rw [spiralList, dif_neg (by omega), spiralList_nil _ _ _ _ (Or.inl rfl),
        List.append_nil]
      unfold ringPath
      rw [if_pos rfl, hd0]
    · by_cases hn1 : n = 1
      · -- single left column: one blocked step, then a run of m - 1 cells up
        subst hn1
        have h1 : spiralIter rows cols 1 ⟨r0, c0, 0, prev⟩ =
            ⟨r0 + 1, c0, 1, prev ++ [(r0, c0)]⟩ := by
          refine (spiral_run rows cols 0 1 r0 c0 prev le_rfl
            (by intro k hk1 hk2; omega) ?_).trans ?_
          · rw [sR0, sC0]
            by_cases hedge : c0 + ((1 : Nat) : Int) * 1 < (cols : Int)
            · refine Or.inr ?_
              rw [hprev]
              omega
            · exact Or.inl (fun hcon => hedge hcon.2.1)
          · rw [SpiralState.mk.injEq]
            refine ⟨by rw [sR0, sR01]; omega, by rw [sC0, sC01]; omega, rfl,
              by rw [seg_one]⟩
        have h2 : spiralIter rows cols (m - 1) ⟨r0 + 1, c0, 1, prev ++ [(r0, c0)]⟩ =
            ⟨r0 + (m : Int) - 1, c0 - 1, 2,
             (prev ++ [(r0, c0)]) ++
               seg (r0 + 1, c0) (stepRow 1, stepCol 1) (m - 1)⟩ := by
          refine (spiral_run rows cols 1 (m - 1) (r0 + 1) c0 (prev ++ [(r0, c0)])
            (by omega) ?_ ?_).trans ?_
          · intro k hk1 hkm
            rw [sR1, sC1]
            refine ⟨⟨by omega, by omega, by omega, by omega⟩, ?_⟩
            intro hmem
            rcases List.mem_append.mp hmem with hmem | hmem
            · rw [hprev] at hmem
              omega
            · have he := List.mem_singleton.mp hmem
              rw [Prod.mk.injEq] at he
              omega
          · rw [sR1, sC1]
            by_cases hedge : r0 + 1 + ((m - 1 : Nat) : Int) * 1 < (rows : Int)
            · refine Or.inr (List.mem_append_left _ ?_)
              rw [hprev]
              omega
            · exact Or.inl (fun hcon => hedge hcon.2.2.2)
          · rw [SpiralState.mk.injEq]
            refine ⟨by rw [sR1, sR12]; omega, by rw [sC1, sC12]; omega, rfl, rfl⟩
        rw [show m * 1 = 1 + (m - 1) by omega, spiralIter_add, h1, h2]
        show (prev ++ [(r0, c0)]) ++ seg (r0 + 1, c0) (stepRow 1, stepCol 1) (m - 1) = _
        rw [spiralList, dif_neg (by omega), spiralList_nil _ _ _ _ (Or.inr rfl),
          List.append_nil]
        unfold ringPath
        rw [if_neg hm1, if_pos rfl, hd1]
        obtain ⟨m', rfl⟩ : ∃ m', m = m' + 1 := ⟨m - 1, by omega⟩
        rw [seg_cons]
        dsimp only
        simp only [Nat.add_sub_cancel, List.append_assoc, List.singleton_append,
          add_zero]
      · -- full ring: m, n ≥ 2
        have hm2 : 2 ≤ m := by omega
        have hn2 : 2 ≤ n := by omega
        -- run 1: bottom row, n cells rightward
        have h1 : spiralIter rows cols n ⟨r0, c0, 0, prev⟩ =
            ⟨r0 + 1, c0 + (n : Int) - 1, 1,
             prev ++ seg (r0, c0) (stepRow 0, stepCol 0) n⟩ := by
          refine (spiral_run rows cols 0 n r0 c0 prev (by omega) ?_ ?_).trans ?_
          · intro k hk1 hkn
            rw [sR0, sC0]
            refine ⟨⟨by omega, by omega, by omega, by omega⟩, ?_⟩
            intro hmem
            rw [hprev] at hmem
            omega
          · rw [sR0, sC0]
            by_cases hedge : c0 + (n : Int) * 1 < (cols : Int)
            · refine Or.inr ?_
              rw [hprev]
              omega
            · exact Or.inl (fun hcon => hedge hcon.2.1)
          · rw [SpiralState.mk.injEq]
            refine ⟨by rw [sR0, sR01]; omega, by rw [sC0, sC01]; omega, rfl, rfl⟩
        -- run 2: right column, m - 1 cells upward
        have h2 : spiralIter rows cols (m - 1)
            ⟨r0 + 1, c0 + (n : Int) - 1, 1,
              prev ++ seg (r0, c0) (stepRow 0, stepCol 0) n⟩ =
            ⟨r0 + (m : Int) - 1, c0 + (n : Int) - 2, 2,
             (prev ++ seg (r0, c0) (stepRow 0, stepCol 0) n) ++
               seg (r0 + 1, c0 + (n : Int) - 1) (stepRow 1, stepCol 1) (m - 1)⟩ := by
          refine (spiral_run rows cols 1 (m - 1) (r0 + 1) (c0 + (n : Int) - 1) _
            (by omega) ?_ ?_).trans ?_
          · intro k hk1 hkm
            rw [sR1, sC1]
            refine ⟨⟨by omega, by omega, by omega, by omega⟩, ?_⟩
            intro hmem
            rcases List.mem_append.mp hmem with hmem | hmem
            · rw [hprev] at hmem
              omega
            · rw [mem_seg] at hmem
              obtain ⟨k', hk', he⟩ := hmem
              rw [sR0, sC0, Prod.mk.injEq] at he
              omega
          · rw [sR1, sC1]
            by_cases hedge : r0 + 1 + ((m - 1 : Nat) : Int) * 1 < (rows : Int)
            · refine Or.inr (List.mem_append_left _ ?_)
              rw [hprev]
              omega
            · exact Or.inl (fun hcon => hedge hcon.2.2.2)
          · rw [SpiralState.mk.injEq]
            refine ⟨by rw [sR1, sR12]; omega, by rw [sC1, sC12]; omega, rfl, rfl⟩
        -- run 3: top row, n - 1 cells leftward
        have h3 : spiralIter rows cols (n - 1)
            ⟨r0 + (m : Int) - 1, c0 + (n : Int) - 2, 2,
              (prev ++ seg (r0, c0) (stepRow 0, stepCol 0) n) ++
                seg (r0 + 1, c0 + (n : Int) - 1) (stepRow 1, stepCol 1) (m - 1)⟩ =
            ⟨r0 + (m : Int) - 2, c0, 3,
             ((prev ++ seg (r0, c0) (stepRow 0, stepCol 0) n) ++
               seg (r0 + 1, c0 + (n : Int) - 1) (stepRow 1, stepCol 1) (m - 1)) ++
               seg (r0 + (m : Int) - 1, c0 + (n : Int) - 2) (stepRow 2, stepCol 2)
                 (n - 1)⟩ := by
          refine (spiral_run rows cols 2 (n - 1) (r0 + (m : Int) - 1)
            (c0 + (n : Int) - 2) _ (by omega) ?_ ?_).trans ?_
          · intro k hk1 hkn
            rw [sR2, sC2]
            refine ⟨⟨by omega, by omega, by omega, by omega⟩, ?_⟩
            intro hmem
            rcases List.mem_append.mp hmem with hmem | hmem
            rcases List.mem_append.mp hmem with hmem | hmem
            · rw [hprev] at hmem
              omega
            · rw [mem_seg] at hmem
              obtain ⟨k', hk', he⟩ := hmem
              rw [sR0, sC0, Prod.mk.injEq] at he
              omega
            · rw [mem_seg] at hmem
              obtain ⟨k', hk', he⟩ := hmem
              rw [sR1, sC1, Prod.mk.injEq] at he
              omega
          · rw [sR2, sC2]
            by_cases hedge : 0 ≤ c0 + (n : Int) - 2 + ((n - 1 : Nat) : Int) * (-1)
            · refine Or.inr (List.mem_append_left _ (List.mem_append_left _ ?_))
              rw [hprev]
              omega
            · exact Or.inl (fun hcon => hedge hcon.1)
          · rw [SpiralState.mk.injEq]
            refine ⟨by rw [sR2, sR23]; omega, by rw [sC2, sC23]; omega, rfl, rfl⟩
        by_cases hmg : m = 2
        · -- two-row ring: ends after run 3 (left-column segment is empty)
          subst hmg
          rw [show 2 * n = n + ((2 - 1) + (n - 1)) by omega, spiralIter_add, h1,
            spiralIter_add, h2, h3]
          show ((prev ++ _) ++ _) ++ _ = _
          rw [spiralList, dif_neg (by omega),
            spiralList_nil _ _ _ _ (Or.inl rfl), List.append_nil]
          unfold ringPath
          rw [if_neg hm1, if_neg hn1, show (2 : Nat) - 2 = 0 from rfl, seg_zero,
            List.append_nil, hd0, hd1, hd2]
          simp only [List.append_assoc]
        · -- run 4: left column, m - 2 cells downward, ending at (r0+1, c0+1)
          have hm3 : 3 ≤ m := by omega
          have h4 : spiralIter rows cols (m - 2)
              ⟨r0 + (m : Int) - 2, c0, 3,
                ((prev ++ seg (r0, c0) (stepRow 0, stepCol 0) n) ++
                  seg (r0 + 1, c0 + (n : Int) - 1) (stepRow 1, stepCol 1) (m - 1)) ++
                  seg (r0 + (m : Int) - 1, c0 + (n : Int) - 2) (stepRow 2, stepCol 2)
                    (n - 1)⟩ =
              ⟨r0 + 1, c0 + 1, 0,
               (((prev ++ seg (r0, c0) (stepRow 0, stepCol 0) n) ++
                 seg (r0 + 1, c0 + (n : Int) - 1) (stepRow 1, stepCol 1) (m - 1)) ++
                 seg (r0 + (m : Int) - 1, c0 + (n : Int) - 2) (stepRow 2, stepCol 2)
                   (n - 1)) ++
                 seg (r0 + (m : Int) - 2, c0) (stepRow 3, stepCol 3) (m - 2)⟩ := by
            refine (spiral_run rows cols 3 (m - 2) (r0 + (m : Int) - 2) c0 _
              (by omega) ?_ ?_).trans ?_
            · intro k hk1 hkm
              rw [sR3, sC3]
              refine ⟨⟨by omega, by omega, by omega, by omega⟩, ?_⟩
              intro hmem
              rcases List.mem_append.mp hmem with hmem | hmem
              rcases List.mem_append.mp hmem with hmem | hmem
              rcases List.mem_append.mp hmem with hmem | hmem
              · rw [hprev] at hmem
                omega
              · rw [mem_seg] at hmem
                obtain ⟨k', hk', he⟩ := hmem
                rw [sR0, sC0, Prod.mk.injEq] at he
                omega
              · rw [mem_seg] at hmem
                obtain ⟨k', hk', he⟩ := hmem
                rw [sR1, sC1, Prod.mk.injEq] at he
                omega
              · rw [mem_seg] at hmem
                obtain ⟨k', hk', he⟩ := hmem
                rw [sR2, sC2, Prod.mk.injEq] at he
                omega
            · rw [sR3, sC3]
              refine Or.inr (List.mem_append_left _ (List.mem_append_left _
                (List.mem_append_right _ ?_)))
              rw [mem_seg]
              refine ⟨0, by omega, ?_⟩
              rw [sR0, sC0, Prod.mk.injEq]
              constructor <;> omega
            · rw [SpiralState.mk.injEq]
              refine ⟨by rw [sR3, sR30]; omega, by rw [sC3, sC30]; omega, rfl, rfl⟩
          have hcount : m * n =
              n + ((m - 1) + ((n - 1) + ((m - 2) + (m - 2) * (n - 2)))) := by
            obtain ⟨a, rfl⟩ : ∃ a, m = a + 2 := ⟨m - 2, by omega⟩
            obtain ⟨b, rfl⟩ : ∃ b, n = b + 2 := ⟨n - 2, by omega⟩
            have e1 : a + 2 - 1 = a + 1 := by omega
            have e2 : b + 2 - 1 = b + 1 := by omega
            have e3 : a + 2 - 2 = a := by omega
            have e4 : b + 2 - 2 = b := by omega
            rw [e1, e2, e3, e4]
            ring
          rw [hcount, spiralIter_add, h1, spiralIter_add, h2, spiralIter_add, h3,
            spiralIter_add, h4]
          by_cases hng : n = 2
          · subst hng
            rw [show (m - 2) * (2 - 2) = 0 by rw [show (2 : Nat) - 2 = 0 from rfl,
              Nat.mul_zero]]
            show (((prev ++ _) ++ _) ++ _) ++ _ = _
            rw [spiralList, dif_neg (by omega),
              spiralList_nil _ _ _ _ (Or.inr rfl), List.append_nil]
            unfold ringPath
            rw [if_neg hm1, if_neg hn1, hd0, hd1, hd2, hd3]
            simp only [List.append_assoc]
          · have hprev4 : ∀ a b : Int,
                (a, b) ∈ (((prev ++ seg (r0, c0) (stepRow 0, stepCol 0) n) ++
                  seg (r0 + 1, c0 + (n : Int) - 1) (stepRow 1, stepCol 1) (m - 1)) ++
                  seg (r0 + (m : Int) - 1, c0 + (n : Int) - 2) (stepRow 2, stepCol 2)
                    (n - 1)) ++
                  seg (r0 + (m : Int) - 2, c0) (stepRow 3, stepCol 3) (m - 2) ↔
                (0 ≤ a ∧ a < (rows : Int) ∧ 0 ≤ b ∧ b < (cols : Int) ∧
                  ¬(r0 + 1 ≤ a ∧ a < r0 + 1 + ((m - 2 : Nat) : Int) ∧
                    c0 + 1 ≤ b ∧ b < c0 + 1 + ((n - 2 : Nat) : Int))) := by
              intro a b
              simp only [List.mem_append, mem_seg, hprev a b, Prod.mk.injEq,
                sR0, sC0, sR1, sC1, sR2, sC2, sR3, sC3]
              constructor
              · rintro ((((h | ⟨k, hk, ha, hb⟩) | ⟨k, hk, ha, hb⟩) |
                  ⟨k, hk, ha, hb⟩) | ⟨k, hk, ha, hb⟩) <;> omega
              · intro h
                by_cases hrect : r0 ≤ a ∧ a < r0 + (m : Int) ∧ c0 ≤ b ∧
                  b < c0 + (n : Int)
                · by_cases e1 : a = r0
                  · refine Or.inl (Or.inl (Or.inl (Or.inr
                      ⟨(b - c0).toNat, by omega, by omega, by omega⟩)))
                  · by_cases e2 : b = c0 + n - 1
                    · refine Or.inl (Or.inl (Or.inr
                        ⟨(a - (r0 + 1)).toNat, by omega, by omega, by omega⟩))
                    · by_cases e3 : a = r0 + m - 1
                      · refine Or.inl (Or.inr
                          ⟨(c0 + n - 2 - b).toNat, by omega, by omega, by omega⟩)
                      · by_cases e4 : b = c0
                        · refine Or.inr
                            ⟨(r0 + m - 2 - a).toNat, by omega, by omega, by omega⟩
                        · exfalso
                          omega
                · exact Or.inl (Or.inl (Or.inl (Or.inl (by omega))))
            have hnext := IH (m - 2) (by omega) (n - 2) (r0 + 1) (c0 + 1) _
              (by omega) (by omega) (by omega) (by omega) (by omega) (by omega)
              hprev4
            rw [hnext]
            nth_rewrite 2 [spiralList]
            rw [dif_neg (by omega)]
            unfold ringPath
            rw [if_neg hm1, if_neg hn1, hd0, hd1, hd2, hd3]
            simp only [List.append_assoc]

lemma spiralStep_waypoints (rows cols : Nat) (s : SpiralState) :
    (spiralStep rows cols s).waypoints = s.waypoints ++ [(s.row, s.col)] := by
  unfold spiralStep
  dsimp only
  split_ifs <;> rfl

lemma spiralIter_waypoints_extend (rows cols : Nat) :
    ∀ (k : Nat) (s : SpiralState), ∃ l,
      (spiralIter rows cols k s).waypoints = s.waypoints ++ l := by
  intro k
  induction k with
  | zero => intro s; exact ⟨[], (List.append_nil s.waypoints).symm⟩
  | succ k ih =>
    intro s
    obtain ⟨l, hl⟩ := ih (spiralStep rows cols s)
    refine ⟨(s.row, s.col) :: l, ?_⟩
    show (spiralIter rows cols k (spiralStep rows cols s)).waypoints = _
    rw [hl, spiralStep_waypoints]
    simp

lemma get_spiral_length (rows cols : Nat) :
    (get_spiral_waypoints rows cols).length = rows * cols := by
  unfold get_spiral_waypoints
  rw [List.length_reverse, spiralIter_waypoints_length]
  simp

lemma get_spiral_eq (rows cols : Nat) (hr : 1 ≤ rows) (hc : 1 ≤ cols) :
    get_spiral_waypoints rows cols = (spiralList 0 0 rows cols).reverse := by
  unfold get_spiral_waypoints
  rw [spiral_sim rows cols rows cols 0 0 [] hr hc le_rfl le_rfl
    (by omega) (by omega) ?_]
  · rw [List.nil_append]
  · intro a b
    constructor
    · intro h
      exact absurd h (List.not_mem_nil (a, b))
    · intro h
      exfalso
      omega

/-- C6: `Grid.get_spiral_waypoints` returns a sequence of length
`rows * cols` that contains every node of the grid exactly once (no
duplicates) and whose final element is the node at (row 0, col 0). -/
theorem c6_spiral_coverage (rows cols : Nat) (hr : 1 ≤ rows) (hc : 1 ≤ cols) :
    (get_spiral_waypoints rows cols).length = rows * cols ∧
    (get_spiral_waypoints rows cols).Nodup ∧
    (∀ r c : Nat, r < rows → c < cols →
      ((r : Int), (c : Int)) ∈ get_spiral_waypoints rows cols) ∧
    (get_spiral_waypoints rows cols).getLast? = some (0, 0) := by
  refine ⟨get_spiral_length rows cols, ?_, ?_, ?_⟩
  · rw [get_spiral_eq rows cols hr hc, List.nodup_reverse]
    exact spiralList_nodup rows cols 0 0
  · intro r c hrr hcc
    rw [get_spiral_eq rows cols hr hc, List.mem_reverse]
    refine (spiralList_mem rows cols 0 0 ((r : Int), (c : Int))).mpr ?_
    refine ⟨by omega, by omega, by omega, by omega⟩
  · obtain ⟨k, hk⟩ : ∃ k, rows * cols = k + 1 :=
      ⟨rows * cols - 1, by have := Nat.mul_pos hr hc; omega⟩
    unfold get_spiral_waypoints
    rw [hk]
    show ((spiralIter rows cols k
      (spiralStep rows cols ⟨0, 0, 0, []⟩)).waypoints).reverse.getLast? = _
    obtain ⟨l, hl⟩ :=
      spiralIter_waypoints_extend rows cols k (spiralStep rows cols ⟨0, 0, 0, []⟩)
    rw [hl, spiralStep_waypoints]
    simp

/-- Witness for C6 at a concrete 4 × 5 grid. -/
theorem c6_witness :
    1 ≤ 4 ∧ 1 ≤ 5 ∧
      ((get_spiral_waypoints 4 5).length = 4 * 5 ∧
       (get_spiral_waypoints 4 5).Nodup ∧
       (∀ r c : Nat, r < 4 → c < 5 →
         ((r : Int), (c : Int)) ∈ get_spiral_waypoints 4 5) ∧
       (get_spiral_waypoints 4 5).getLast? = some (0, 0)) :=
  ⟨by decide, by decide, c6_spiral_coverage 4 5 (by decide) (by decide)⟩

end CornellNexus
